import Mathlib

/-!
Verification of the Ollamize summarization pipeline (`app.py`).

The development shallowly embeds the pure core of the program:

* `chunk_text`     — the chunker (`chunk_text` in `app.py`), including input
  normalization (line-break replacement), the sentence-boundary search via
  `str.rfind`, and per-chunk trimming via `str.strip`;
* `summarize_long_text_iterative` — the summarizer orchestration, with the
  external completion service (`call_ollama`) abstracted as a function
  `call : List Char → Except PyErr (List Char)`; a successful result models
  the (already stripped) accumulated stream output, an `Except.error` models
  a raised exception whose `str(e)` is the `msg` field;
* `summarizeTrace` — the ordered list of prompts the summarizer submits to
  the completion service (per-chunk prompts in order, then the merge prompt
  if one is issued);
* `route_resolve` / `summarize_route` — the input handling and error
  translation of the `/summarize` Flask route; document extraction is
  external, so an uploaded file is modelled as its (lowercased-extension
  dispatched) filename together with the text its extractor returns.

Strings are modelled as `List Char`.
-/

set_option maxHeartbeats 1000000

/-- Character list of a string literal. -/
def chars (x : String) : List Char := x.data

/-- ASCII whitespace as stripped by Python `str.strip()`. -/
def pyIsSpace (c : Char) : Bool :=
  c == ' ' || c == '\t' || c == '\n' || c == '\r' || c == '\x0b' || c == '\x0c'

/-- Python `str.strip()`: remove leading and trailing whitespace. -/
def pyStrip (l : List Char) : List Char :=
  ((l.dropWhile pyIsSpace).reverse.dropWhile pyIsSpace).reverse

/-- Python slice `text[s:e]`. -/
def pySlice (l : List Char) (s e : Nat) : List Char :=
  (l.take e).drop s

/-- Python `text.replace("\r\n", " ")`: left-to-right, non-overlapping. -/
def replaceCRLF : List Char → List Char
  | c1 :: c2 :: rest =>
    if c1 = '\r' ∧ c2 = '\n' then ' ' :: replaceCRLF rest
    else c1 :: replaceCRLF (c2 :: rest)
  | l => l

/-- Python `text.replace("\n", " ")`. -/
def replaceLF (l : List Char) : List Char :=
  l.map (fun c => if c = '\n' then ' ' else c)

/-- The normalization performed first by `chunk_text`:
`text.replace("\r\n", " ").replace("\n", " ")`. -/
def normalizeText (l : List Char) : List Char :=
  replaceLF (replaceCRLF l)

/-- Python `text.rfind(c, s, e)` for a single character `c`: the largest
index `i` with `s ≤ i < e` and `text[i] = c`, as an `Option` (`none` for
Python's `-1`). -/
def pyRfind (text : List Char) (c : Char) (s : Nat) : Nat → Option Nat
  | 0 => none
  | e + 1 =>
    if e + 1 ≤ s then none
    else if text.get? e = some c then some e
    else pyRfind text c s e

/-- The boundary selection of `chunk_text`: the last `'.'` in `[s, e)`,
else the last `';'`, else `e` itself (`split_at` in the source). -/
def splitBoundary (text : List Char) (s e : Nat) : Nat :=
  match pyRfind text '.' s e with
  | some i => i
  | none =>
    match pyRfind text ';' s e with
    | some i => i
    | none => e

theorem pyRfind_ge {text : List Char} {c : Char} {s : Nat} :
    ∀ {e i : Nat}, pyRfind text c s e = some i → s ≤ i ∧ i < e := by
  intro e
  induction e with
  | zero => intro i h; simp [pyRfind] at h
  | succ e ih =>
    intro i h
    rw [pyRfind] at h
    by_cases h1 : e + 1 ≤ s
    · simp [h1] at h
    · rw [if_neg h1] at h
      by_cases h2 : text.get? e = some c
      · rw [if_pos h2] at h
        cases h
        omega
      · rw [if_neg h2] at h
        have := ih h
        omega

theorem splitBoundary_ge {text : List Char} {s e : Nat} (h : s ≤ e) :
    s ≤ splitBoundary text s e := by
  unfold splitBoundary
  cases h1 : pyRfind text '.' s e with
  | some i => exact (pyRfind_ge h1).1
  | none =>
    cases h2 : pyRfind text ';' s e with
    | some i => exact (pyRfind_ge h2).1
    | none => exact h

theorem splitBoundary_le {text : List Char} {s e : Nat} :
    splitBoundary text s e ≤ e := by
  unfold splitBoundary
  cases h1 : pyRfind text '.' s e with
  | some i => exact Nat.le_of_lt (pyRfind_ge h1).2
  | none =>
    cases h2 : pyRfind text ';' s e with
    | some i => exact Nat.le_of_lt (pyRfind_ge h2).2
    | none => exact Nat.le_refl e

/-- The splitting loop of `chunk_text` (source lines 49–61), entered with
cursor `start`.  Each iteration emits `text[start:split_at+1].strip()` and
advances the cursor to `split_at + 1`; when the window reaches the end of
the text it emits `text[start:].strip()` and stops. -/
def chunkLoop (text : List Char) (maxChars : Nat) (start : Nat) : List (List Char) :=
  if h1 : start < text.length then
    if h2 : text.length ≤ start + maxChars then
      [pyStrip (text.drop start)]
    else
      pyStrip (pySlice text start (splitBoundary text start (start + maxChars) + 1)) ::
        chunkLoop text maxChars (splitBoundary text start (start + maxChars) + 1)
  else []
termination_by text.length - start
decreasing_by
  have hb : start ≤ splitBoundary text start (start + maxChars) :=
    splitBoundary_ge (Nat.le_add_right _ _)
  omega

/-- `chunk_text` from `app.py`: normalize line breaks, return the whole
trimmed text as a single chunk when it fits, otherwise run the splitting
loop from cursor 0. -/
def chunk_text (text : List Char) (maxChars : Nat) : List (List Char) :=
  if (normalizeText text).length ≤ maxChars then [pyStrip (normalizeText text)]
  else chunkLoop (normalizeText text) maxChars 0

/-- Decimal representation of a `Nat`, as interpolated by Python f-strings. -/
def natStr (n : Nat) : List Char := (Nat.repr n).data

/-- A Python exception value: `msg` models `str(e)`, and
`isRequestException` records whether it is a `requests` exception (the
route's first `except` clause). -/
structure PyErr where
  msg : List Char
  isRequestException : Bool
deriving DecidableEq

/-- The inline error marker `f"[ERROR: {e}]"` substituted for a failed
chunk summary. -/
def errMarker (e : PyErr) : List Char :=
  chars "[ERROR: " ++ e.msg ++ chars "]"

/-- The per-chunk prompt built by `summarize_long_text_iterative`. -/
def chunkPrompt (i n : Nat) (ch : List Char) : List Char :=
  chars "Summarize the following text concisely (one paragraph) keeping key points and facts. Chunk " ++
    natStr i ++ chars " of " ++ natStr n ++ chars ":\n\n" ++ ch ++ chars "\n\nSummary:"

/-- One iteration of the per-chunk loop: call the completion service on the
chunk prompt, catching a failure and substituting the error marker; the
result is appended after `.strip()`. -/
def perChunkSummary (call : List Char → Except PyErr (List Char)) (i n : Nat)
    (ch : List Char) : List Char :=
  match call (chunkPrompt i n ch) with
  | Except.ok summary => pyStrip summary
  | Except.error e => pyStrip (errMarker e)

/-- The per-chunk loop of the summarizer, with 1-based running index `i`
and total chunk count `n`. -/
def summarizeChunks (call : List Char → Except PyErr (List Char)) (n : Nat) :
    Nat → List (List Char) → List (List Char)
  | _, [] => []
  | i, ch :: rest => perChunkSummary call i n ch :: summarizeChunks call n (i + 1) rest

/-- The prompts submitted by the per-chunk loop, in submission order. -/
def chunkPrompts (n : Nat) : Nat → List (List Char) → List (List Char)
  | _, [] => []
  | i, ch :: rest => chunkPrompt i n ch :: chunkPrompts n (i + 1) rest

/-- The labelled lines `f"Chunk {i}: {s}"` of the merge prompt. -/
def chunkLabel (i : Nat) (sm : List Char) : List Char :=
  chars "Chunk " ++ natStr i ++ chars ": " ++ sm

/-- The labelled summary lines, 1-based. -/
def chunkLabels : Nat → List (List Char) → List (List Char)
  | _, [] => []
  | i, sm :: rest => chunkLabel i sm :: chunkLabels (i + 1) rest

/-- Python `sep.join(parts)`. -/
def joinSep (sep : List Char) : List (List Char) → List Char
  | [] => []
  | [x] => x
  | x :: y :: rest => x ++ sep ++ joinSep sep (y :: rest)

/-- The fixed text of the merge prompt before the labelled summaries. -/
def mergeHeader : List Char :=
  chars "You are an expert summarizer. Given the following chunk summaries, produce a single concise and coherent summary in 3–6 sentences containing the most important points.\n\n"

/-- The fixed text of the merge prompt after the labelled summaries. -/
def mergeFooter : List Char :=
  chars "\n\nFinal summary:"

/-- The merge prompt (`final_prompt` in the source): header, the labelled
chunk summaries joined by newlines (`combined`), and footer. -/
def finalPrompt (summaries : List (List Char)) : List Char :=
  mergeHeader ++ joinSep (chars "\n") (chunkLabels 1 summaries) ++ mergeFooter

/-- The `chunks` local of `summarize_long_text_iterative`:
`chunk_text(text, max_chars=3000)`. -/
def chunksOf (text : List Char) : List (List Char) :=
  chunk_text text 3000

/-- The `chunk_summaries` local of `summarize_long_text_iterative`. -/
def chunkSummariesOf (call : List Char → Except PyErr (List Char))
    (text : List Char) : List (List Char) :=
  summarizeChunks call (chunksOf text).length 1 (chunksOf text)

/-- `summarize_long_text_iterative` from `app.py`: one chunk summary is
returned directly; otherwise the merge completion call is issued with no
surrounding `try`, so its failure propagates. -/
def summarize_long_text_iterative (call : List Char → Except PyErr (List Char))
    (text : List Char) : Except PyErr (List Char) :=
  if (chunkSummariesOf call text).length = 1 then
    Except.ok (chunkSummariesOf call text).headI
  else
    (call (finalPrompt (chunkSummariesOf call text))).map pyStrip

/-- The ordered list of prompts `summarize_long_text_iterative` submits to
the completion service: all per-chunk prompts in chunk order, followed by
the merge prompt exactly when the merge call is issued. -/
def summarizeTrace (call : List Char → Except PyErr (List Char))
    (text : List Char) : List (List Char) :=
  if (chunkSummariesOf call text).length = 1 then
    chunkPrompts (chunksOf text).length 1 (chunksOf text)
  else
    chunkPrompts (chunksOf text).length 1 (chunksOf text) ++
      [finalPrompt (chunkSummariesOf call text)]

/-- An uploaded file as seen by the route: its filename, and the text the
applicable extractor returns for it (extraction itself is an external
collaborator).  A request with no usable file part is `none`. -/
def FileUpload : Type := List Char × List Char

/-- The input-handling prefix of the `/summarize` route (source lines
121–144): resolve the document text from the file upload (dispatched on
the lowercased filename extension, rejecting unsupported extensions and
empty extraction results) or else from the non-empty form text. -/
def route_resolve (form_text : List Char) (file : Option FileUpload) :
    Except (List Char) (List Char) :=
  match file with
  | some (filename0, extracted) =>
    if (chars ".pdf").isSuffixOf (filename0.map Char.toLower)
        || (chars ".docx").isSuffixOf (filename0.map Char.toLower)
        || (chars ".txt").isSuffixOf (filename0.map Char.toLower) then
      if pyStrip extracted = [] then Except.error (chars "Could not extract text from file")
      else Except.ok extracted
    else Except.error (chars "Unsupported file type. Allowed: .pdf, .docx, .txt")
  | none =>
    if pyStrip form_text = [] then Except.error (chars "No text or file provided")
    else Except.ok (pyStrip form_text)

/-- The route's response: `success` is the 200 JSON with a `summary`
field, `inputError` a 400 JSON with an `error` field, `serverError` a 500
JSON with `error` and `details` fields. -/
inductive Resp where
  | success (summary : List Char)
  | inputError (msg : List Char)
  | serverError (msg details : List Char)
deriving DecidableEq

/-- The `/summarize` route: resolve the input, run the summarizer, and
translate a propagated exception into a 500 response whose `details`
carries `str(e)` (the `error` label depends on the exception class). -/
def summarize_route (call : List Char → Except PyErr (List Char))
    (form_text : List Char) (file : Option FileUpload) : Resp :=
  match route_resolve form_text file with
  | Except.error msg => Resp.inputError msg
  | Except.ok text =>
    match summarize_long_text_iterative call text with
    | Except.ok summary => Resp.success summary
    | Except.error e =>
      if e.isRequestException then
        Resp.serverError (chars "Failed to contact Ollama API") e.msg
      else
        Resp.serverError (chars "Error during summarization") e.msg

/-- `x` occurs as a contiguous segment of `l`. -/
def isSeg (x l : List Char) : Prop := ∃ u v, l = u ++ x ++ v

/-- Partition of a list into consecutive blocks of `k` characters (the
last block may be shorter).  Used to describe the raw, untrimmed slices
the chunker produces on punctuation-free text. -/
def blocks (k : Nat) : List Char → List (List Char)
  | [] => []
  | a :: rest => (a :: rest.take (k - 1)) :: blocks k (rest.drop (k - 1))
termination_by l => l.length
decreasing_by
  simp only [List.length_cons, List.length_drop]
  omega

/-! ### Basic facts about stripping and normalization -/

theorem dropWhile_eq_self_of {p : Char → Bool} :
    ∀ {l : List Char}, (∀ c ∈ l, p c = false) → l.dropWhile p = l := by
  intro l h
  cases l with
  | nil => rfl
  | cons a rest =>
    rw [List.dropWhile_cons, h a (by simp)]
    simp

theorem pyStrip_eq_self {l : List Char} (h : ∀ c ∈ l, pyIsSpace c = false) :
    pyStrip l = l := by
  unfold pyStrip
  rw [dropWhile_eq_self_of h, dropWhile_eq_self_of, List.reverse_reverse]
  intro c hc
  exact h c (List.mem_reverse.mp hc)

theorem pyStrip_eq_nil_of {l : List Char} (h : ∀ c ∈ l, pyIsSpace c = true) :
    pyStrip l = [] := by
  unfold pyStrip
  rw [List.dropWhile_eq_nil_iff.mpr (fun x hx => h x hx)]
  simp

theorem all_space_of_pyStrip_eq_nil {l : List Char} (h : pyStrip l = []) :
    ∀ c ∈ l, pyIsSpace c = true := by
  unfold pyStrip at h
  rw [List.reverse_eq_nil_iff, List.dropWhile_eq_nil_iff] at h
  intro c hc
  have hsplit := List.takeWhile_append_dropWhile pyIsSpace l
  rw [← hsplit] at hc
  rcases List.mem_append.mp hc with h1 | h2
  · exact List.mem_takeWhile_imp h1
  · exact h c (List.mem_reverse.mpr h2)

theorem replaceCRLF_eq_self : ∀ l : List Char, '\n' ∉ l → replaceCRLF l = l := by
  intro l
  induction l with
  | nil => intro h; rfl
  | cons c rest ih =>
    intro h
    cases rest with
    | nil => rfl
    | cons c2 rest2 =>
      have h2 : ¬(c = '\r' ∧ c2 = '\n') := by
        rintro ⟨_, rfl⟩
        exact h (by simp)
      simp only [replaceCRLF, if_neg h2]
      congr 1
      exact ih (fun hm => h (List.mem_cons_of_mem _ hm))

theorem replaceLF_eq_self {l : List Char} (h : '\n' ∉ l) : replaceLF l = l := by
  induction l with
  | nil => rfl
  | cons c rest ih =>
    have hc : ¬ c = '\n' := by
      intro hc; exact h (hc ▸ List.mem_cons_self c rest)
    simp only [replaceLF, List.map_cons, if_neg hc]
    congr 1
    exact ih (fun hm => h (List.mem_cons_of_mem _ hm))

theorem normalizeText_eq_self {l : List Char} (h : '\n' ∉ l) : normalizeText l = l := by
  unfold normalizeText
  rw [replaceCRLF_eq_self l h, replaceLF_eq_self h]

theorem length_replaceCRLF_le : ∀ l : List Char, (replaceCRLF l).length ≤ l.length
  | [] => by simp [replaceCRLF]
  | [c] => by simp [replaceCRLF]
  | c1 :: c2 :: rest => by
    by_cases hc : c1 = '\r' ∧ c2 = '\n'
    · simp only [replaceCRLF, if_pos hc]
      have := length_replaceCRLF_le rest
      simp only [List.length_cons]
      omega
    · simp only [replaceCRLF, if_neg hc]
      have := length_replaceCRLF_le (c2 :: rest)
      simp only [List.length_cons] at this ⊢
      omega

theorem length_normalizeText_le (l : List Char) : (normalizeText l).length ≤ l.length := by
  unfold normalizeText replaceLF
  rw [List.length_map]
  exact length_replaceCRLF_le l

/-! ### Replicate, take and drop -/

theorem take_replicate_eq (a : Char) : ∀ (m n : Nat),
    (List.replicate n a).take m = List.replicate (min m n) a
  | 0, n => by simp
  | m + 1, 0 => by simp
  | m + 1, n + 1 => by
    simp only [List.replicate_succ, List.take_succ_cons, Nat.succ_min_succ]
    rw [take_replicate_eq a m n]

theorem drop_replicate_eq (a : Char) : ∀ (m n : Nat),
    (List.replicate n a).drop m = List.replicate (n - m) a
  | 0, n => by simp
  | m + 1, 0 => by simp
  | m + 1, n + 1 => by
    simp only [List.replicate_succ, List.drop_succ_cons, Nat.succ_sub_succ]
    exact drop_replicate_eq a m n

/-! ### Blocks: the raw windows of the punctuation-free chunker -/

theorem blocks_cons {k : Nat} (hk : 0 < k) (a : Char) (rest : List Char) :
    blocks k (a :: rest) = (a :: rest).take k :: blocks k ((a :: rest).drop k) := by
  obtain ⟨m, rfl⟩ : ∃ m, k = m + 1 := ⟨k - 1, by omega⟩
  simp only [blocks, List.take_succ_cons, List.drop_succ_cons, Nat.add_sub_cancel]

theorem blocks_flatten (k : Nat) : ∀ l : List Char, (blocks k l).flatten = l
  | [] => by simp [blocks]
  | a :: rest => by
    have ih := blocks_flatten k (rest.drop (k - 1))
    simp only [blocks, List.flatten_cons, ih, List.cons_append]
    rw [List.take_append_drop]
termination_by l => l.length
decreasing_by
  simp only [List.length_cons, List.length_drop]
  omega

theorem blocks_length_le {k : Nat} (hk : 0 < k) :
    ∀ l : List Char, ∀ b ∈ blocks k l, b.length ≤ k
  | [] => by simp [blocks]
  | a :: rest => by
    intro b hb
    simp only [blocks, List.mem_cons] at hb
    rcases hb with rfl | hb
    · simp only [List.length_cons, List.length_take]
      omega
    · exact blocks_length_le hk (rest.drop (k - 1)) b hb
termination_by l => l.length
decreasing_by
  simp only [List.length_cons, List.length_drop]
  omega

theorem blocks_eq_nil_iff {k : Nat} {l : List Char} : blocks k l = [] ↔ l = [] := by
  cases l with
  | nil => simp [blocks]
  | cons a rest => simp [blocks]

theorem blocks_dropLast_length {k : Nat} (hk : 0 < k) :
    ∀ l : List Char, ∀ b ∈ (blocks k l).dropLast, b.length = k
  | [] => by simp [blocks]
  | a :: rest => by
    intro b hb
    simp only [blocks] at hb
    cases hbs : blocks k (rest.drop (k - 1)) with
    | nil => rw [hbs] at hb; simp at hb
    | cons b2 bs2 =>
      rw [hbs, List.dropLast_cons₂] at hb
      rcases List.mem_cons.mp hb with rfl | hb2
      · have hne : rest.drop (k - 1) ≠ [] := by
          intro hnil
          rw [hnil] at hbs
          simp [blocks] at hbs
        have hlen : k - 1 < rest.length := by
          by_contra hge
          exact hne (List.drop_of_length_le (by omega))
        simp only [List.length_cons, List.length_take]
        omega
      · have := blocks_dropLast_length hk (rest.drop (k - 1))
        rw [hbs] at this
        exact this b hb2
termination_by l => l.length
decreasing_by
  simp only [List.length_cons, List.length_drop]
  omega

/-! ### The chunker on punctuation-free text -/

theorem pyRfind_eq_none {text : List Char} {c : Char} (h : c ∉ text) (s : Nat) :
    ∀ e, pyRfind text c s e = none := by
  intro e
  induction e with
  | zero => rfl
  | succ e ih =>
    rw [pyRfind]
    by_cases h1 : e + 1 ≤ s
    · simp [h1]
    · rw [if_neg h1]
      have h2 : ¬ text.get? e = some c := by
        intro hc
        exact h (List.get?_mem hc)
      rw [if_neg h2]
      exact ih

theorem splitBoundary_no_punct {text : List Char} (hp : '.' ∉ text) (hs : ';' ∉ text)
    (s e : Nat) : splitBoundary text s e = e := by
  unfold splitBoundary
  rw [pyRfind_eq_none hp s e, pyRfind_eq_none hs s e]

theorem chunkLoop_no_punct {text : List Char} (hp : '.' ∉ text) (hs : ';' ∉ text)
    (maxChars : Nat) : ∀ start,
    chunkLoop text maxChars start = (blocks (maxChars + 1) (text.drop start)).map pyStrip
  | start => by
    rw [chunkLoop]
    by_cases h1 : start < text.length
    · rw [dif_pos h1]
      have hne : text.drop start ≠ [] := by
        intro hnil
        have := List.length_drop start text
        rw [hnil] at this
        simp at this
        omega
      obtain ⟨a, rest, hd⟩ := List.exists_cons_of_ne_nil hne
      by_cases h2 : text.length ≤ start + maxChars
      · rw [dif_pos h2]
        have hlen : (text.drop start).length ≤ maxChars + 1 := by
          rw [List.length_drop]
          omega
        rw [hd, blocks_cons (by omega)]
        rw [← hd, List.take_of_length_le hlen]
        have hdrop : (text.drop start).drop (maxChars + 1) = [] :=
          List.drop_of_length_le hlen
        rw [hd] at hdrop ⊢
        rw [hdrop]
        simp [blocks]
      · rw [dif_neg h2]
        rw [splitBoundary_no_punct hp hs]
        have ih := chunkLoop_no_punct hp hs maxChars (start + maxChars + 1)
        rw [ih]
        rw [hd, blocks_cons (by omega), ← hd]
        rw [List.map_cons]
        congr 1
        · unfold pySlice
          rw [List.take_drop start (maxChars + 1) text, Nat.add_assoc]
        · rw [List.drop_drop, ← Nat.add_assoc]
    · rw [dif_neg h1]
      rw [List.drop_of_length_le (by omega)]
      simp [blocks]
termination_by start => text.length - start
decreasing_by
  omega

theorem chunk_text_no_punct {text : List Char} {maxChars : Nat}
    (hp : '.' ∉ normalizeText text) (hs : ';' ∉ normalizeText text)
    (hlong : maxChars < (normalizeText text).length) :
    chunk_text text maxChars = (blocks (maxChars + 1) (normalizeText text)).map pyStrip := by
  unfold chunk_text
  rw [if_neg (by omega)]
  have := chunkLoop_no_punct hp hs maxChars 0
  simpa using this

/-! ### Concrete chunker evaluations on punctuation-free inputs -/

theorem blocks_eq_cons {k : Nat} (hk : 0 < k) {l : List Char} (hl : l ≠ []) :
    blocks k l = l.take k :: blocks k (l.drop k) := by
  obtain ⟨a, rest, rfl⟩ := List.exists_cons_of_ne_nil hl
  exact blocks_cons hk a rest

theorem blocks_nil {k : Nat} : blocks k ([] : List Char) = [] :=
  blocks_eq_nil_iff.mpr rfl

theorem blocks_replicate_pos {k n : Nat} (a : Char) (hk : 0 < k) (hn : 0 < n) :
    blocks k (List.replicate n a) =
      List.replicate (min k n) a :: blocks k (List.replicate (n - k) a) := by
  rw [blocks_eq_cons hk (by simp; omega)]
  rw [take_replicate_eq, drop_replicate_eq]

theorem not_mem_replicate_of_ne {c a : Char} (h : c ≠ a) (n : Nat) :
    c ∉ List.replicate n a := by
  intro hm
  exact h (List.mem_replicate.mp hm).2

theorem pyStrip_replicate_a (n : Nat) :
    pyStrip (List.replicate n 'a') = List.replicate n 'a' := by
  apply pyStrip_eq_self
  intro c hc
  rcases List.mem_replicate.mp hc with ⟨-, rfl⟩
  decide

theorem normalizeText_replicate_a (n : Nat) :
    normalizeText (List.replicate n 'a') = List.replicate n 'a' :=
  normalizeText_eq_self (not_mem_replicate_of_ne (by decide) n)

theorem chunk_text_replicate_a {n : Nat} (h : 3000 < n) :
    chunk_text (List.replicate n 'a') 3000 =
      (blocks 3001 (List.replicate n 'a')).map pyStrip := by
  have hnorm := normalizeText_replicate_a n
  have hp : '.' ∉ normalizeText (List.replicate n 'a') := by
    rw [hnorm]; exact not_mem_replicate_of_ne (by decide) n
  have hs : ';' ∉ normalizeText (List.replicate n 'a') := by
    rw [hnorm]; exact not_mem_replicate_of_ne (by decide) n
  have hlong : 3000 < (normalizeText (List.replicate n 'a')).length := by
    rw [hnorm]; simpa using h
  have := chunk_text_no_punct hp hs hlong
  rw [hnorm] at this
  exact this

theorem blocks_3001_6002 :
    blocks 3001 (List.replicate 6002 'a') =
      [List.replicate 3001 'a', List.replicate 3001 'a'] := by
  rw [blocks_replicate_pos 'a' (by omega) (by omega)]
  rw [Nat.min_eq_left (by omega)]
  have e1 : (6002 : Nat) - 3001 = 3001 := by norm_num
  rw [e1, blocks_replicate_pos 'a' (by omega) (by omega)]
  rw [Nat.min_self]
  have e2 : (3001 : Nat) - 3001 = 0 := by norm_num
  rw [e2, List.replicate_zero, blocks_nil]

theorem blocks_3001_8000 :
    blocks 3001 (List.replicate 8000 'a') =
      [List.replicate 3001 'a', List.replicate 3001 'a', List.replicate 1998 'a'] := by
  rw [blocks_replicate_pos 'a' (by omega) (by omega)]
  rw [Nat.min_eq_left (by omega)]
  have e1 : (8000 : Nat) - 3001 = 4999 := by norm_num
  rw [e1, blocks_replicate_pos 'a' (by omega) (by omega)]
  rw [Nat.min_eq_left (by omega)]
  have e2 : (4999 : Nat) - 3001 = 1998 := by norm_num
  rw [e2, blocks_replicate_pos 'a' (by omega) (by omega)]
  rw [Nat.min_eq_right (by omega)]
  have e3 : (1998 : Nat) - 3001 = 0 := by omega
  rw [e3, List.replicate_zero, blocks_nil]

theorem blocks_3001_3001 :
    blocks 3001 (List.replicate 3001 'a') = [List.replicate 3001 'a'] := by
  rw [blocks_replicate_pos 'a' (by omega) (by omega)]
  rw [Nat.min_self]
  have e : (3001 : Nat) - 3001 = 0 := by norm_num
  rw [e, List.replicate_zero, blocks_nil]

theorem chunks_6002 :
    chunk_text (List.replicate 6002 'a') 3000 =
      [List.replicate 3001 'a', List.replicate 3001 'a'] := by
  rw [chunk_text_replicate_a (by omega), blocks_3001_6002]
  simp only [List.map_cons, List.map_nil, pyStrip_replicate_a]

theorem chunks_8000 :
    chunk_text (List.replicate 8000 'a') 3000 =
      [List.replicate 3001 'a', List.replicate 3001 'a', List.replicate 1998 'a'] := by
  rw [chunk_text_replicate_a (by omega), blocks_3001_8000]
  simp only [List.map_cons, List.map_nil, pyStrip_replicate_a]

theorem chunks_3001 :
    chunk_text (List.replicate 3001 'a') 3000 = [List.replicate 3001 'a'] := by
  rw [chunk_text_replicate_a (by omega), blocks_3001_3001]
  simp only [List.map_cons, List.map_nil, pyStrip_replicate_a]

/-! ### Structure of the summarizer's lists -/

theorem summarizeChunks_length (call : List Char → Except PyErr (List Char)) (n : Nat) :
    ∀ (i : Nat) (l : List (List Char)), (summarizeChunks call n i l).length = l.length := by
  intro i l
  induction l generalizing i with
  | nil => rfl
  | cons ch rest ih => simp only [summarizeChunks, List.length_cons, ih]

theorem summarizeChunks_getElem? (call : List Char → Except PyErr (List Char)) (n : Nat) :
    ∀ (l : List (List Char)) (i j : Nat),
      (summarizeChunks call n i l)[j]? =
        (l[j]?).map (fun ch => perChunkSummary call (i + j) n ch) := by
  intro l
  induction l with
  | nil => intro i j; simp [summarizeChunks]
  | cons ch rest ih =>
    intro i j
    cases j with
    | zero => simp [summarizeChunks]
    | succ j =>
      simp only [summarizeChunks, List.getElem?_cons_succ]
      rw [ih (i + 1) j]
      have he : i + 1 + j = i + (j + 1) := by omega
      rw [he]

theorem chunkPrompts_length (n : Nat) :
    ∀ (i : Nat) (l : List (List Char)), (chunkPrompts n i l).length = l.length := by
  intro i l
  induction l generalizing i with
  | nil => rfl
  | cons ch rest ih => simp only [chunkPrompts, List.length_cons, ih]

theorem chunkPrompts_getElem? (n : Nat) :
    ∀ (l : List (List Char)) (i j : Nat),
      (chunkPrompts n i l)[j]? = (l[j]?).map (fun ch => chunkPrompt (i + j) n ch) := by
  intro l
  induction l with
  | nil => intro i j; simp [chunkPrompts]
  | cons ch rest ih =>
    intro i j
    cases j with
    | zero => simp [chunkPrompts]
    | succ j =>
      simp only [chunkPrompts, List.getElem?_cons_succ]
      rw [ih (i + 1) j]
      have he : i + 1 + j = i + (j + 1) := by omega
      rw [he]

theorem chunkLabels_length :
    ∀ (i : Nat) (l : List (List Char)), (chunkLabels i l).length = l.length := by
  intro i l
  induction l generalizing i with
  | nil => rfl
  | cons sm rest ih => simp only [chunkLabels, List.length_cons, ih]

theorem chunkLabels_getElem? :
    ∀ (l : List (List Char)) (i j : Nat),
      (chunkLabels i l)[j]? = (l[j]?).map (fun sm => chunkLabel (i + j) sm) := by
  intro l
  induction l with
  | nil => intro i j; simp [chunkLabels]
  | cons sm rest ih =>
    intro i j
    cases j with
    | zero => simp [chunkLabels]
    | succ j =>
      simp only [chunkLabels, List.getElem?_cons_succ]
      rw [ih (i + 1) j]
      have he : i + 1 + j = i + (j + 1) := by omega
      rw [he]

theorem chunkSummariesOf_length (call : List Char → Except PyErr (List Char))
    (text : List Char) : (chunkSummariesOf call text).length = (chunksOf text).length := by
  unfold chunkSummariesOf
  exact summarizeChunks_length call _ 1 _

/-! ### Occurrence of labelled summaries inside the merge prompt -/

theorem isSeg_append {x m : List Char} (pre post : List Char) (h : isSeg x m) :
    isSeg x (pre ++ m ++ post) := by
  obtain ⟨u, v, rfl⟩ := h
  exact ⟨pre ++ u, v ++ post, by simp [List.append_assoc]⟩

theorem isSeg_joinSep (sep : List Char) :
    ∀ (parts : List (List Char)) (x : List Char), x ∈ parts → isSeg x (joinSep sep parts)
  | [], x, hx => by simp at hx
  | [y], x, hx => by
    have hxy : x = y := by simpa using hx
    exact ⟨[], [], by simp [hxy, joinSep]⟩
  | y :: z :: rest, x, hx => by
    rcases List.mem_cons.mp hx with rfl | hx2
    · exact ⟨[], sep ++ joinSep sep (z :: rest), by simp [joinSep, List.append_assoc]⟩
    · obtain ⟨u, v, huv⟩ := isSeg_joinSep sep (z :: rest) x hx2
      exact ⟨y ++ sep ++ u, v, by simp [joinSep, huv, List.append_assoc]⟩

theorem isSeg_label_finalPrompt {summaries : List (List Char)} {i : Nat} {sm : List Char}
    (h : summaries[i]? = some sm) :
    isSeg (chunkLabel (1 + i) sm) (finalPrompt summaries) := by
  unfold finalPrompt
  apply isSeg_append
  apply isSeg_joinSep
  have hl : (chunkLabels 1 summaries)[i]? = some (chunkLabel (1 + i) sm) := by
    rw [chunkLabels_getElem?, h]
    rfl
  exact List.getElem?_mem hl

/-! ### The error marker survives stripping -/

theorem pyStrip_bracketed (x : List Char) :
    pyStrip ('[' :: (x ++ [']'])) = '[' :: (x ++ [']']) := by
  unfold pyStrip
  rw [List.dropWhile_cons, if_neg (by decide)]
  rw [show ('[' :: (x ++ [']'])).reverse = ']' :: (x.reverse ++ ['[']) from by simp]
  rw [List.dropWhile_cons, if_neg (by decide)]
  simp

theorem errMarker_eq_cons (e : PyErr) :
    errMarker e = '[' :: ((chars "ERROR: " ++ e.msg) ++ [']']) := by
  unfold errMarker
  rw [show chars "[ERROR: " = '[' :: chars "ERROR: " from rfl,
    show chars "]" = [']'] from rfl]
  simp [List.append_assoc]

theorem pyStrip_errMarker (e : PyErr) : pyStrip (errMarker e) = errMarker e := by
  rw [errMarker_eq_cons, pyStrip_bracketed]

theorem errMarker_ne_nil (e : PyErr) : errMarker e ≠ [] := by
  rw [errMarker_eq_cons]
  exact List.cons_ne_nil _ _

/-! ### An all-whitespace window yields an empty non-final chunk -/

theorem chunk_text_spaces :
    chunk_text (List.replicate 3001 ' ' ++ ['a']) 3000 = [[], ['a']] := by
  have hnm : ∀ c : Char, c ≠ ' ' → c ≠ 'a' → c ∉ List.replicate 3001 ' ' ++ ['a'] := by
    intro c h1 h2 hmem
    rcases List.mem_append.mp hmem with hm | hm
    · exact h1 (List.mem_replicate.mp hm).2
    · exact h2 (by simpa using hm)
  have hnorm : normalizeText (List.replicate 3001 ' ' ++ ['a']) =
      List.replicate 3001 ' ' ++ ['a'] :=
    normalizeText_eq_self (hnm '\n' (by decide) (by decide))
  have hp : '.' ∉ normalizeText (List.replicate 3001 ' ' ++ ['a']) := by
    rw [hnorm]; exact hnm '.' (by decide) (by decide)
  have hs : ';' ∉ normalizeText (List.replicate 3001 ' ' ++ ['a']) := by
    rw [hnorm]; exact hnm ';' (by decide) (by decide)
  have hlong : 3000 < (normalizeText (List.replicate 3001 ' ' ++ ['a'])).length := by
    rw [hnorm]
    simp only [List.length_append, List.length_replicate, List.length_cons, List.length_nil]
    omega
  have hmain := chunk_text_no_punct hp hs hlong
  rw [hnorm] at hmain
  rw [hmain]
  have hne : List.replicate 3001 ' ' ++ ['a'] ≠ [] := by
    intro h
    have hlen := congrArg List.length h
    simp only [List.length_append, List.length_replicate, List.length_cons,
      List.length_nil] at hlen
    omega
  rw [blocks_eq_cons (by omega) hne]
  rw [List.take_left' (by simp only [List.length_replicate]),
    List.drop_left' (by simp only [List.length_replicate])]
  rw [blocks_eq_cons (by omega) (List.cons_ne_nil 'a' [])]
  rw [List.take_of_length_le (by decide), List.drop_of_length_le (by decide), blocks_nil]
  simp only [List.map_cons, List.map_nil]
  rw [pyStrip_eq_nil_of (by
    intro c hc
    rcases List.mem_replicate.mp hc with ⟨-, rfl⟩
    decide)]
  rw [pyStrip_eq_self (by
    intro c hc
    have : c = 'a' := by simpa using hc
    rw [this]
    decide)]

/-! ### Every chunk is the trim of a contiguous window -/

theorem isSeg_pySlice (l : List Char) (s e : Nat) : isSeg (pySlice l s e) l :=
  ⟨(l.take e).take s, l.drop e, by
    unfold pySlice
    rw [List.take_append_drop, List.take_append_drop]⟩

theorem isSeg_drop (l : List Char) (s : Nat) : isSeg (l.drop s) l :=
  ⟨l.take s, [], by rw [List.append_nil, List.take_append_drop]⟩

theorem isSeg_self (l : List Char) : isSeg l l :=
  ⟨[], [], by simp⟩

theorem chunkLoop_mem {text : List Char} {maxChars : Nat} :
    ∀ start c, c ∈ chunkLoop text maxChars start →
      ∃ w, isSeg w text ∧ c = pyStrip w
  | start, c => by
    intro hc
    rw [chunkLoop] at hc
    by_cases h1 : start < text.length
    · rw [dif_pos h1] at hc
      by_cases h2 : text.length ≤ start + maxChars
      · rw [dif_pos h2] at hc
        have : c = pyStrip (text.drop start) := by simpa using hc
        exact ⟨text.drop start, isSeg_drop text start, this⟩
      · rw [dif_neg h2] at hc
        rcases List.mem_cons.mp hc with rfl | hc2
        · exact ⟨_, isSeg_pySlice text start _, rfl⟩
        · have hb : start ≤ splitBoundary text start (start + maxChars) :=
            splitBoundary_ge (Nat.le_add_right _ _)
          exact chunkLoop_mem (splitBoundary text start (start + maxChars) + 1) c hc2
    · rw [dif_neg h1] at hc
      simp at hc
termination_by start => text.length - start
decreasing_by omega

theorem chunkLoop_length_le (text : List Char) (maxChars : Nat) (start : Nat) :
    (chunkLoop text maxChars start).length ≤ text.length - start := by
  have H : ∀ fuel s, text.length - s ≤ fuel →
      (chunkLoop text maxChars s).length ≤ text.length - s := by
    intro fuel
    induction fuel with
    | zero =>
      intro s h
      rw [chunkLoop, dif_neg (by omega)]
      simp
    | succ fuel ih =>
      intro s h
      rw [chunkLoop]
      by_cases h1 : s < text.length
      · rw [dif_pos h1]
        by_cases h2 : text.length ≤ s + maxChars
        · rw [dif_pos h2]
          simp only [List.length_cons, List.length_nil]
          omega
        · rw [dif_neg h2]
          have hb : s ≤ splitBoundary text s (s + maxChars) :=
            splitBoundary_ge (Nat.le_add_right _ _)
          have := ih (splitBoundary text s (s + maxChars) + 1) (by omega)
          simp only [List.length_cons]
          omega
      · rw [dif_neg h1]
        simp
  exact H (text.length - start) start (Nat.le_refl _)

/-! ## Claim C1 -/

/-- C1, counterexample.  The input of 3001 letters `a` is strictly longer
than the maximum chunk length 3000 and its normalized form contains no
period and no semicolon, yet the chunker returns a single chunk of 3001
characters: the claimed bound "each chunk has exactly max-length
characters, the last at most max-length" fails (the fallback slice
`text[start:end+1]` includes one character beyond the window). -/
theorem claim1_chunk_exact_length_counterexample :
    3000 < (List.replicate 3001 'a').length ∧
    '.' ∉ normalizeText (List.replicate 3001 'a') ∧
    ';' ∉ normalizeText (List.replicate 3001 'a') ∧
    chunk_text (List.replicate 3001 'a') 3000 = [List.replicate 3001 'a'] ∧
    ¬ (List.replicate 3001 'a').length ≤ 3000 := by
  refine ⟨?_, ?_, ?_, chunks_3001, ?_⟩
  · simp only [List.length_replicate]
    omega
  · rw [normalizeText_replicate_a]
    exact not_mem_replicate_of_ne (by decide) _
  · rw [normalizeText_replicate_a]
    exact not_mem_replicate_of_ne (by decide) _
  · simp only [List.length_replicate]
    omega

/-- C1, amended.  For normalized text strictly longer than `maxChars` with
no period and no semicolon, the chunker's chunks are the trims of the
consecutive raw windows of `maxChars + 1` (not `maxChars`) characters:
every window except possibly the last has exactly `maxChars + 1`
characters, the last has at most `maxChars + 1`, and concatenating the raw
windows (that is, the chunks with trimming ignored) reconstructs the
normalized input. -/
theorem claim1_chunk_exact_length_amended (text : List Char) (maxChars : Nat)
    (hp : '.' ∉ normalizeText text) (hs : ';' ∉ normalizeText text)
    (hlong : maxChars < (normalizeText text).length) :
    chunk_text text maxChars = (blocks (maxChars + 1) (normalizeText text)).map pyStrip ∧
    (blocks (maxChars + 1) (normalizeText text)).flatten = normalizeText text ∧
    (∀ b ∈ (blocks (maxChars + 1) (normalizeText text)).dropLast, b.length = maxChars + 1) ∧
    (∀ b ∈ blocks (maxChars + 1) (normalizeText text), b.length ≤ maxChars + 1) := by
  refine ⟨chunk_text_no_punct hp hs hlong, blocks_flatten _ _, ?_, ?_⟩
  · exact blocks_dropLast_length (by omega) _
  · exact blocks_length_le (by omega) _

/-- C1, witness: the amended statement evaluated on 6002 letters `a` with
the default maximum length 3000. -/
theorem claim1_chunk_exact_length_witness :
    chunk_text (List.replicate 6002 'a') 3000 =
      (blocks 3001 (normalizeText (List.replicate 6002 'a'))).map pyStrip ∧
    (blocks 3001 (normalizeText (List.replicate 6002 'a'))).flatten =
      normalizeText (List.replicate 6002 'a') := by
  have h := claim1_chunk_exact_length_amended (List.replicate 6002 'a') 3000
    (by rw [normalizeText_replicate_a]; exact not_mem_replicate_of_ne (by decide) _)
    (by rw [normalizeText_replicate_a]; exact not_mem_replicate_of_ne (by decide) _)
    (by rw [normalizeText_replicate_a]; simp only [List.length_replicate]; omega)
  exact ⟨h.1, h.2.1⟩

/-! ## Claim C7 -/

/-- C7, counterexample.  On an input of 3001 spaces followed by `a` (no
punctuation, longer than 3000), the first window is entirely whitespace,
so the chunker returns the empty string as its FIRST chunk of two: an
empty chunk can occur in non-final position, contrary to the claim. -/
theorem claim7_no_empty_chunk_counterexample :
    chunk_text (List.replicate 3001 ' ' ++ ['a']) 3000 = [[], ['a']] ∧
    (chunk_text (List.replicate 3001 ' ' ++ ['a']) 3000)[0]? = some [] ∧
    (chunk_text (List.replicate 3001 ' ' ++ ['a']) 3000).length = 2 := by
  refine ⟨chunk_text_spaces, ?_, ?_⟩
  · rw [chunk_text_spaces]
    rfl
  · rw [chunk_text_spaces]
    rfl

/-- C7, amended.  Every chunk is the trim of a contiguous window of the
normalized text, and a chunk can be empty only when its whole window is
whitespace — which can happen at any position (not only at the final,
trailing chunk), as the counterexample shows. -/
theorem claim7_no_empty_chunk_amended (text : List Char) (maxChars : Nat)
    (c : List Char) (hc : c ∈ chunk_text text maxChars) :
    ∃ w, isSeg w (normalizeText text) ∧ c = pyStrip w ∧
      (c = [] → ∀ ch ∈ w, pyIsSpace ch = true) := by
  unfold chunk_text at hc
  by_cases h : (normalizeText text).length ≤ maxChars
  · rw [if_pos h] at hc
    have hceq : c = pyStrip (normalizeText text) := by simpa using hc
    refine ⟨normalizeText text, isSeg_self _, hceq, ?_⟩
    intro hnil
    exact all_space_of_pyStrip_eq_nil (by rw [← hceq]; exact hnil)
  · rw [if_neg h] at hc
    obtain ⟨w, hw, hceq⟩ := chunkLoop_mem 0 c hc
    refine ⟨w, hw, hceq, ?_⟩
    intro hnil
    exact all_space_of_pyStrip_eq_nil (by rw [← hceq]; exact hnil)

/-- C7, witness: the amended statement evaluated on the two-character
input `hi`, whose single chunk is `hi` itself. -/
theorem claim7_no_empty_chunk_witness :
    ∃ w, isSeg w (normalizeText (chars "hi")) ∧ chars "hi" = pyStrip w ∧
      (chars "hi" = [] → ∀ ch ∈ w, pyIsSpace ch = true) :=
  claim7_no_empty_chunk_amended (chars "hi") 3000 (chars "hi") (by decide)

/-! ## Claim C8 -/

/-- C8, counterexample.  The three-character input `a\nb` is within the
maximum length, and the chunker returns one chunk — but the chunk is the
trimmed NORMALIZED input `a b` (line breaks replaced by spaces), not the
trimmed input itself. -/
theorem claim8_single_chunk_counterexample :
    (chars "a\nb").length ≤ 3000 ∧
    chunk_text (chars "a\nb") 3000 ≠ [pyStrip (chars "a\nb")] ∧
    chunk_text (chars "a\nb") 3000 = [pyStrip (normalizeText (chars "a\nb"))] := by
  refine ⟨by decide, by decide, by decide⟩

/-- C8, amended.  For every input of length at most `maxChars`, the
chunker returns exactly one chunk, equal to the trimmed normalized input
(the input with line-break sequences replaced by spaces, then stripped). -/
theorem claim8_single_chunk_amended (text : List Char) (maxChars : Nat)
    (h : text.length ≤ maxChars) :
    chunk_text text maxChars = [pyStrip (normalizeText text)] := by
  unfold chunk_text
  rw [if_pos]
  have := length_normalizeText_le text
  omega

/-- C8, witness: the amended statement evaluated on the input `hi`. -/
theorem claim8_single_chunk_witness :
    (chars "hi").length ≤ 3000 ∧
    chunk_text (chars "hi") 3000 = [pyStrip (normalizeText (chars "hi"))] :=
  ⟨by decide, claim8_single_chunk_amended (chars "hi") 3000 (by decide)⟩

/-! ## Claim C9 -/

/-- C9, confirmed.  The chunker's cursor strictly increases on every loop
iteration: the next cursor value `splitBoundary + 1` is strictly greater
than the current `start` (the boundary index is at least `start`), and
consequently the splitting loop terminates, emitting at most
`text.length - start` chunks from cursor `start`. -/
theorem claim9_termination (text : List Char) (maxChars start : Nat) :
    start < splitBoundary text start (start + maxChars) + 1 ∧
    (chunkLoop text maxChars start).length ≤ text.length - start := by
  constructor
  · have hb : start ≤ splitBoundary text start (start + maxChars) :=
      splitBoundary_ge (Nat.le_add_right _ _)
    omega
  · exact chunkLoop_length_le text maxChars start

/-! ### Stub completion services (the spec's "stub completion service") -/

/-- Stub service: always succeeds with output `S`. -/
def okSCall : List Char → Except PyErr (List Char) :=
  fun _ => Except.ok (chars "S")

/-- Stub service: always succeeds, but with empty output. -/
def okEmptyCall : List Char → Except PyErr (List Char) :=
  fun _ => Except.ok []

/-- Stub service: every call raises. -/
def failCall : List Char → Except PyErr (List Char) :=
  fun _ => Except.error ⟨chars "boom", true⟩

/-- Stub service: succeeds with output ` x ` (whitespace to be trimmed). -/
def okSpacedCall : List Char → Except PyErr (List Char) :=
  fun _ => Except.ok (chars " x ")

/-- Stub service: fails exactly on the merge prompt over the two chunk
summaries `S`, `S`; all other prompts succeed with output `S`. -/
def mergeFailCall : List Char → Except PyErr (List Char) :=
  fun p =>
    if p = finalPrompt [chars "S", chars "S"] then Except.error ⟨chars "boom", true⟩
    else Except.ok (chars "S")

/-- Stub service: fails exactly on the prompt of chunk 2 of 3 (a window of
3001 letters `a`); all other prompts succeed with output `fine`. -/
def chunk2FailCall : List Char → Except PyErr (List Char) :=
  fun p =>
    if p = chunkPrompt 2 3 (List.replicate 3001 'a') then Except.error ⟨chars "boom", false⟩
    else Except.ok (chars "fine")

theorem replicate_ne_nil_of_pos {n : Nat} {a : Char} (h : 0 < n) :
    List.replicate n a ≠ [] := by
  intro hnil
  have := congrArg List.length hnil
  simp only [List.length_replicate, List.length_nil] at this
  omega

theorem chunksOf_6002_length : (chunksOf (List.replicate 6002 'a')).length = 2 := by
  unfold chunksOf
  rw [chunks_6002]
  rfl

theorem chunksOf_8000_length : (chunksOf (List.replicate 8000 'a')).length = 3 := by
  unfold chunksOf
  rw [chunks_8000]
  rfl

/-! ## Claim C2 -/

/-- C2, confirmed.  For a multi-chunk input the summarizer submits exactly
one prompt per chunk, in chunk order (the `i`-th submitted prompt is the
per-chunk prompt for the `i`-th chunk with its 1-based index), followed by
exactly one merge prompt; the merge prompt consists of a fixed header, the
chunk summaries labelled `Chunk 1` .. `Chunk N` in order joined by
newlines, and a fixed footer, and every labelled summary occurs as a
contiguous segment of it. -/
theorem claim2_call_sequence (call : List Char → Except PyErr (List Char))
    (text : List Char) (hN : 2 ≤ (chunksOf text).length) :
    summarizeTrace call text =
      chunkPrompts (chunksOf text).length 1 (chunksOf text) ++
        [finalPrompt (chunkSummariesOf call text)] ∧
    (chunkPrompts (chunksOf text).length 1 (chunksOf text)).length =
      (chunksOf text).length ∧
    (∀ i : Nat, (chunkPrompts (chunksOf text).length 1 (chunksOf text))[i]? =
      ((chunksOf text)[i]?).map (fun ch => chunkPrompt (1 + i) (chunksOf text).length ch)) ∧
    (chunkSummariesOf call text).length = (chunksOf text).length ∧
    finalPrompt (chunkSummariesOf call text) =
      mergeHeader ++ joinSep (chars "\n") (chunkLabels 1 (chunkSummariesOf call text)) ++
        mergeFooter ∧
    (∀ i : Nat, (chunkLabels 1 (chunkSummariesOf call text))[i]? =
      ((chunkSummariesOf call text)[i]?).map (fun sm => chunkLabel (1 + i) sm)) ∧
    (∀ (i : Nat) (sm : List Char), (chunkSummariesOf call text)[i]? = some sm →
      isSeg (chunkLabel (1 + i) sm) (finalPrompt (chunkSummariesOf call text))) := by
  have hlen := chunkSummariesOf_length call text
  have hne : ¬ (chunkSummariesOf call text).length = 1 := by omega
  refine ⟨?_, chunkPrompts_length _ 1 _, ?_, hlen, rfl, ?_, ?_⟩
  · unfold summarizeTrace
    rw [if_neg hne]
  · intro i
    exact chunkPrompts_getElem? _ _ 1 i
  · intro i
    exact chunkLabels_getElem? _ 1 i
  · intro i sm h
    exact isSeg_label_finalPrompt h

/-- C2, witness: the call-sequence statement evaluated on 6002 letters `a`
(two chunks) with a stub service that always answers `S`. -/
theorem claim2_call_sequence_witness :
    summarizeTrace okSCall (List.replicate 6002 'a') =
      chunkPrompts (chunksOf (List.replicate 6002 'a')).length 1
          (chunksOf (List.replicate 6002 'a')) ++
        [finalPrompt (chunkSummariesOf okSCall (List.replicate 6002 'a'))] ∧
    (chunkSummariesOf okSCall (List.replicate 6002 'a')).length =
      (chunksOf (List.replicate 6002 'a')).length := by
  have h := claim2_call_sequence okSCall (List.replicate 6002 'a')
    (by rw [chunksOf_6002_length])
  exact ⟨h.1, h.2.2.2.1⟩

/-! ## Claim C3 -/

/-- C3, confirmed.  For a single-chunk input the summarizer submits
exactly the one per-chunk prompt — no merge prompt is ever issued — and
when that single completion call succeeds, the final summary is the
trimmed output of that call. -/
theorem claim3_single_chunk_no_merge (call : List Char → Except PyErr (List Char))
    (text : List Char) (h1 : (chunksOf text).length = 1) :
    summarizeTrace call text = [chunkPrompt 1 1 (chunksOf text).headI] ∧
    ∀ out : List Char, call (chunkPrompt 1 1 (chunksOf text).headI) = Except.ok out →
      summarize_long_text_iterative call text = Except.ok (pyStrip out) := by
  have hsum1 : (chunkSummariesOf call text).length = 1 := by
    rw [chunkSummariesOf_length]
    exact h1
  obtain ⟨ch, hch⟩ := List.length_eq_one.mp h1
  constructor
  · unfold summarizeTrace
    rw [if_pos hsum1, hch]
    simp [chunkPrompts]
  · intro out hcall
    rw [hch] at hcall
    simp only [List.headI_cons] at hcall
    unfold summarize_long_text_iterative
    rw [if_pos hsum1]
    unfold chunkSummariesOf
    rw [hch]
    simp only [List.length_cons, List.length_nil, Nat.zero_add, summarizeChunks,
      List.headI_cons]
    unfold perChunkSummary
    rw [hcall]

/-- C3, witness: a two-character input (one chunk) with a stub service
answering ` x `; the final summary is the trimmed `x` and the trace is the
single per-chunk prompt. -/
theorem claim3_single_chunk_no_merge_witness :
    summarizeTrace okSpacedCall (chars "hi") =
      [chunkPrompt 1 1 (chunksOf (chars "hi")).headI] ∧
    summarize_long_text_iterative okSpacedCall (chars "hi") =
      Except.ok (pyStrip (chars " x ")) := by
  have h := claim3_single_chunk_no_merge okSpacedCall (chars "hi") (by decide)
  exact ⟨h.1, h.2 (chars " x ") rfl⟩

/-! ## Claim C4 -/

/-- C4, confirmed.  When the completion call for chunk `i` (1-based index
`1 + i` for 0-based `i`) fails with exception `e`, the summarizer
substitutes the bracketed error marker `[ERROR: str(e)]` for that chunk's
summary and keeps processing: the summary list still has one entry per
chunk, every chunk whose call succeeds keeps its trimmed output, and in
the multi-chunk case every labelled entry — including the failed chunk's
marker — occurs as a contiguous segment of the merge prompt. -/
theorem claim4_per_chunk_failure (call : List Char → Except PyErr (List Char))
    (text : List Char) (i : Nat) (ch : List Char) (e : PyErr)
    (hch : (chunksOf text)[i]? = some ch)
    (hfail : call (chunkPrompt (1 + i) (chunksOf text).length ch) = Except.error e) :
    (chunkSummariesOf call text).length = (chunksOf text).length ∧
    (chunkSummariesOf call text)[i]? = some (errMarker e) ∧
    (∀ (j : Nat) (ch2 out : List Char), (chunksOf text)[j]? = some ch2 →
      call (chunkPrompt (1 + j) (chunksOf text).length ch2) = Except.ok out →
      (chunkSummariesOf call text)[j]? = some (pyStrip out)) ∧
    (∀ (j : Nat) (sm : List Char), (chunkSummariesOf call text)[j]? = some sm →
      isSeg (chunkLabel (1 + j) sm) (finalPrompt (chunkSummariesOf call text))) := by
  refine ⟨chunkSummariesOf_length call text, ?_, ?_, ?_⟩
  · unfold chunkSummariesOf
    rw [summarizeChunks_getElem?, hch, Option.map_some']
    unfold perChunkSummary
    rw [hfail]
    show some (pyStrip (errMarker e)) = some (errMarker e)
    rw [pyStrip_errMarker]
  · intro j ch2 out hj hok
    unfold chunkSummariesOf
    rw [summarizeChunks_getElem?, hj, Option.map_some']
    unfold perChunkSummary
    rw [hok]
  · intro j sm hj
    exact isSeg_label_finalPrompt hj

/-- C4, witness: 8000 letters `a` split into three chunks, with a stub
service failing exactly on chunk 2 of 3; the summary list keeps three
entries, chunk 1 keeps its trimmed output, and both the marker entry of
chunk 2 and chunk 1's entry appear labelled inside the merge prompt. -/
theorem claim4_per_chunk_failure_witness :
    (chunkSummariesOf chunk2FailCall (List.replicate 8000 'a')).length =
      (chunksOf (List.replicate 8000 'a')).length ∧
    (chunkSummariesOf chunk2FailCall (List.replicate 8000 'a'))[1]? =
      some (errMarker ⟨chars "boom", false⟩) ∧
    (chunkSummariesOf chunk2FailCall (List.replicate 8000 'a'))[0]? =
      some (pyStrip (chars "fine")) ∧
    isSeg (chunkLabel 2 (errMarker ⟨chars "boom", false⟩))
      (finalPrompt (chunkSummariesOf chunk2FailCall (List.replicate 8000 'a'))) := by
  have hch : (chunksOf (List.replicate 8000 'a'))[1]? = some (List.replicate 3001 'a') := by
    unfold chunksOf
    rw [chunks_8000]
    rfl
  have hfail : chunk2FailCall
      (chunkPrompt (1 + 1) (chunksOf (List.replicate 8000 'a')).length
        (List.replicate 3001 'a')) = Except.error ⟨chars "boom", false⟩ := by
    rw [chunksOf_8000_length]
    show (if chunkPrompt 2 3 (List.replicate 3001 'a') =
        chunkPrompt 2 3 (List.replicate 3001 'a')
      then (Except.error ⟨chars "boom", false⟩ : Except PyErr (List Char))
      else Except.ok (chars "fine")) = Except.error ⟨chars "boom", false⟩
    rw [if_pos rfl]
  have h := claim4_per_chunk_failure chunk2FailCall (List.replicate 8000 'a') 1
    (List.replicate 3001 'a') ⟨chars "boom", false⟩ hch hfail
  refine ⟨h.1, h.2.1, ?_, ?_⟩
  · apply h.2.2.1 0 (List.replicate 3001 'a') (chars "fine")
    · unfold chunksOf
      rw [chunks_8000]
      rfl
    · rw [chunksOf_8000_length]
      show (if chunkPrompt 1 3 (List.replicate 3001 'a') =
          chunkPrompt 2 3 (List.replicate 3001 'a')
        then (Except.error ⟨chars "boom", false⟩ : Except PyErr (List Char))
        else Except.ok (chars "fine")) = Except.ok (chars "fine")
      rw [if_neg (by decide)]
  · exact h.2.2.2 1 (errMarker ⟨chars "boom", false⟩) h.2.1

/-! ## Claim C5 -/

/-- C5, confirmed.  A failure of the merge-stage completion call is not
caught inside the summarizer: whenever the input resolves to a multi-chunk
text and the merge call raises `e`, `summarize_long_text_iterative`
propagates `e` to the route, which turns it into a 500 server-error
response whose `details` field carries the failure description `str(e)`
(the `error` label depends on whether `e` is a `requests` exception). -/
theorem claim5_merge_failure_propagates (call : List Char → Except PyErr (List Char))
    (form_text text : List Char) (file : Option FileUpload) (e : PyErr)
    (hres : route_resolve form_text file = Except.ok text)
    (hN : 2 ≤ (chunksOf text).length)
    (hmerge : call (finalPrompt (chunkSummariesOf call text)) = Except.error e) :
    summarize_long_text_iterative call text = Except.error e ∧
    summarize_route call form_text file =
      (if e.isRequestException then
        Resp.serverError (chars "Failed to contact Ollama API") e.msg
      else
        Resp.serverError (chars "Error during summarization") e.msg) := by
  have hlen := chunkSummariesOf_length call text
  have hne : ¬ (chunkSummariesOf call text).length = 1 := by omega
  have hsum : summarize_long_text_iterative call text = Except.error e := by
    unfold summarize_long_text_iterative
    rw [if_neg hne, hmerge]
    rfl
  refine ⟨hsum, ?_⟩
  unfold summarize_route
  rw [hres]
  show (match summarize_long_text_iterative call text with
    | Except.ok summary => Resp.success summary
    | Except.error e =>
      if e.isRequestException then
        Resp.serverError (chars "Failed to contact Ollama API") e.msg
      else
        Resp.serverError (chars "Error during summarization") e.msg) =
    (if e.isRequestException then
      Resp.serverError (chars "Failed to contact Ollama API") e.msg
    else
      Resp.serverError (chars "Error during summarization") e.msg)
  rw [hsum]

/-- C5, witness: two chunks of letters `a` supplied through the form-text
path, with a stub service that fails exactly on the merge prompt; the
route answers with the 500 response carrying the failure description. -/
theorem claim5_merge_failure_propagates_witness :
    summarize_long_text_iterative mergeFailCall (List.replicate 6002 'a') =
      Except.error ⟨chars "boom", true⟩ ∧
    summarize_route mergeFailCall (List.replicate 6002 'a') none =
      Resp.serverError (chars "Failed to contact Ollama API") (chars "boom") := by
  have hres : route_resolve (List.replicate 6002 'a') none =
      Except.ok (List.replicate 6002 'a') := by
    unfold route_resolve
    rw [pyStrip_replicate_a]
    rw [if_neg (by
      intro h
      exact replicate_ne_nil_of_pos (by omega) h)]
  have hsummaries : chunkSummariesOf mergeFailCall (List.replicate 6002 'a') =
      [chars "S", chars "S"] := by
    unfold chunkSummariesOf chunksOf
    rw [chunks_6002]
    simp only [List.length_cons, List.length_nil, Nat.zero_add, summarizeChunks]
    unfold perChunkSummary
    have h1 : mergeFailCall (chunkPrompt 1 2 (List.replicate 3001 'a')) =
        Except.ok (chars "S") := by
      show (if chunkPrompt 1 2 (List.replicate 3001 'a') =
          finalPrompt [chars "S", chars "S"]
        then (Except.error ⟨chars "boom", true⟩ : Except PyErr (List Char))
        else Except.ok (chars "S")) = Except.ok (chars "S")
      rw [if_neg (by decide)]
    have h2 : mergeFailCall (chunkPrompt (1 + 1) 2 (List.replicate 3001 'a')) =
        Except.ok (chars "S") := by
      show (if chunkPrompt 2 2 (List.replicate 3001 'a') =
          finalPrompt [chars "S", chars "S"]
        then (Except.error ⟨chars "boom", true⟩ : Except PyErr (List Char))
        else Except.ok (chars "S")) = Except.ok (chars "S")
      rw [if_neg (by decide)]
    rw [h1, h2]
    rfl
  have hmerge : mergeFailCall
      (finalPrompt (chunkSummariesOf mergeFailCall (List.replicate 6002 'a'))) =
      Except.error ⟨chars "boom", true⟩ := by
    rw [hsummaries]
    show (if finalPrompt [chars "S", chars "S"] = finalPrompt [chars "S", chars "S"]
      then (Except.error ⟨chars "boom", true⟩ : Except PyErr (List Char))
      else Except.ok (chars "S")) = Except.error ⟨chars "boom", true⟩
    rw [if_pos rfl]
  have h := claim5_merge_failure_propagates mergeFailCall (List.replicate 6002 'a')
    (List.replicate 6002 'a') none ⟨chars "boom", true⟩ hres
    (by rw [chunksOf_6002_length]) hmerge
  exact ⟨h.1, h.2⟩

/-! ## Claim C6 -/

/-- C6, counterexample.  With a stub service that SUCCEEDS on every call
but returns empty output, the two-character input `hi` produces the empty
final summary even though no completion call failed: "the final summary is
non-empty unless every underlying completion call failed" is refuted.
(For multi-chunk inputs the claim also fails in the all-failed direction:
when every call fails the merge call fails too and no final summary is
returned at all — see `claim5_merge_failure_propagates`.) -/
theorem claim6_nonempty_summary_counterexample :
    summarize_long_text_iterative okEmptyCall (chars "hi") = Except.ok [] ∧
    okEmptyCall (chunkPrompt 1 1 (chars "hi")) = Except.ok [] := by
  exact ⟨rfl, rfl⟩

/-- C6, amended.  The guarantee that holds is: (a) for a single-chunk
input whose completion call fails, the final summary is exactly the
(non-empty) embedded error marker rather than being absent; and (b) if
every completion call succeeds with output that is non-empty after
trimming, the final summary is non-empty.  A final summary that is present
can still be empty when a completion call succeeds with whitespace-only
output, and a multi-chunk input with a failing merge call yields no final
summary at all. -/
theorem claim6_nonempty_summary_amended (call : List Char → Except PyErr (List Char))
    (text : List Char) :
    (∀ e : PyErr, (chunksOf text).length = 1 →
      call (chunkPrompt 1 1 (chunksOf text).headI) = Except.error e →
      summarize_long_text_iterative call text = Except.ok (errMarker e) ∧
        errMarker e ≠ []) ∧
    ((∀ p : List Char, ∃ out : List Char, call p = Except.ok out ∧ pyStrip out ≠ []) →
      ∃ r : List Char, summarize_long_text_iterative call text = Except.ok r ∧ r ≠ []) := by
  constructor
  · intro e h1 hfail
    have hsum1 : (chunkSummariesOf call text).length = 1 := by
      rw [chunkSummariesOf_length]
      exact h1
    obtain ⟨ch, hch⟩ := List.length_eq_one.mp h1
    rw [hch] at hfail
    simp only [List.headI_cons] at hfail
    refine ⟨?_, errMarker_ne_nil e⟩
    unfold summarize_long_text_iterative
    rw [if_pos hsum1]
    unfold chunkSummariesOf
    rw [hch]
    simp only [List.length_cons, List.length_nil, Nat.zero_add, summarizeChunks,
      List.headI_cons]
    unfold perChunkSummary
    rw [hfail]
    show Except.ok (pyStrip (errMarker e)) = Except.ok (errMarker e)
    rw [pyStrip_errMarker]
  · intro hok
    by_cases hs1 : (chunkSummariesOf call text).length = 1
    · have h1 : (chunksOf text).length = 1 := by
        rw [← chunkSummariesOf_length call text]
        exact hs1
      obtain ⟨ch, hch⟩ := List.length_eq_one.mp h1
      unfold summarize_long_text_iterative
      rw [if_pos hs1]
      unfold chunkSummariesOf
      rw [hch]
      simp only [List.length_cons, List.length_nil, Nat.zero_add, summarizeChunks,
        List.headI_cons]
      unfold perChunkSummary
      obtain ⟨out, hout, hne⟩ := hok (chunkPrompt 1 1 ch)
      rw [hout]
      exact ⟨pyStrip out, rfl, hne⟩
    · unfold summarize_long_text_iterative
      rw [if_neg hs1]
      obtain ⟨out, hout, hne⟩ := hok (finalPrompt (chunkSummariesOf call text))
      rw [hout]
      exact ⟨pyStrip out, rfl, hne⟩

/-- C6, witness: the amended statement on the input `hi`, once with the
always-failing stub (marker returned) and once with the always-`S` stub
(non-empty summary). -/
theorem claim6_nonempty_summary_witness :
    summarize_long_text_iterative failCall (chars "hi") =
      Except.ok (errMarker ⟨chars "boom", true⟩) ∧
    ∃ r : List Char, summarize_long_text_iterative okSCall (chars "hi") =
      Except.ok r ∧ r ≠ [] := by
  constructor
  · exact ((claim6_nonempty_summary_amended failCall (chars "hi")).1
      ⟨chars "boom", true⟩ (by decide) rfl).1
  · exact (claim6_nonempty_summary_amended okSCall (chars "hi")).2
      (fun p => ⟨chars "S", rfl, by decide⟩)

/-! ## Claim C10 -/

/-- C10, counterexample.  A request carrying BOTH a non-empty text field
and a `.txt` upload whose extracted text is whitespace-only is answered
with the 400 input error `Could not extract text from file` — supplying
both can produce an input-error response, contrary to the claim (the text
field is not used as a fallback). -/
theorem claim10_file_over_text_counterexample :
    pyStrip (chars "hello") ≠ [] ∧
    (chars ".txt").isSuffixOf ((chars "a.txt").map Char.toLower) = true ∧
    summarize_route okSCall (chars "hello") (some (chars "a.txt", chars "   ")) =
      Resp.inputError (chars "Could not extract text from file") := by
  exact ⟨by decide, by decide, rfl⟩

/-- C10, amended.  When a file with a supported extension is uploaded, the
route uses it as the document source and ignores the text field entirely
(the response does not depend on the form text); no input error results
PROVIDED the file's extracted text is non-empty after trimming.  If the
extraction yields only whitespace, an input error is returned even when a
non-empty text field was supplied. -/
theorem claim10_file_over_text_amended (call : List Char → Except PyErr (List Char))
    (form_text fn ext : List Char)
    (hext : ((chars ".pdf").isSuffixOf (fn.map Char.toLower)
      || (chars ".docx").isSuffixOf (fn.map Char.toLower)
      || (chars ".txt").isSuffixOf (fn.map Char.toLower)) = true)
    (hnonempty : ¬ pyStrip ext = []) :
    route_resolve form_text (some (fn, ext)) = Except.ok ext ∧
    (∀ form_text2 : List Char,
      summarize_route call form_text2 (some (fn, ext)) =
        summarize_route call form_text (some (fn, ext))) := by
  have hres : ∀ ft : List Char, route_resolve ft (some (fn, ext)) = Except.ok ext := by
    intro ft
    unfold route_resolve
    show (if ((chars ".pdf").isSuffixOf (fn.map Char.toLower)
        || (chars ".docx").isSuffixOf (fn.map Char.toLower)
        || (chars ".txt").isSuffixOf (fn.map Char.toLower)) = true then
        if pyStrip ext = [] then Except.error (chars "Could not extract text from file")
        else Except.ok ext
      else Except.error (chars "Unsupported file type. Allowed: .pdf, .docx, .txt")) =
      Except.ok ext
    rw [if_pos hext, if_neg hnonempty]
  constructor
  · exact hres form_text
  · intro ft2
    unfold summarize_route
    rw [hres form_text, hres ft2]

/-- C10, witness: a `.txt` upload extracting to `doc` together with the
non-empty form text `hello`; the file's text is used and the response
agrees with the same request carrying an empty form text. -/
theorem claim10_file_over_text_witness :
    route_resolve (chars "hello") (some (chars "a.txt", chars "doc")) =
      Except.ok (chars "doc") ∧
    summarize_route okSCall (chars "") (some (chars "a.txt", chars "doc")) =
      summarize_route okSCall (chars "hello") (some (chars "a.txt", chars "doc")) := by
  have h := claim10_file_over_text_amended okSCall (chars "hello") (chars "a.txt")
    (chars "doc") (by decide) (by decide)
  exact ⟨h.1, h.2 (chars "")⟩
